import Mathlib

/-!
Shallow embedding of `src/dephell/converters/setuppy.py` (class
`SetupPyConverter`): the format detector `can_parse`, the source-rewriting
strategy `_execute` with the `load` metadata mapping, and the `dumps`
serializer with its helpers `_format_req` and `_format_link`.

Machine strings are Lean `String`s; Python `None`/absent is `Option`;
Python exceptions are `Except`; external effects (executing a script,
`distutils.core.run_setup`) appear as explicit oracle arguments.
-/

set_option autoImplicit false

namespace Dephell

/-- Decidable substring check on char lists: `needle` occurs inside `hay`. -/
def infixOf (needle : List Char) : List Char → Bool
| [] => needle.isEmpty
| c :: rest => needle.isPrefixOf (c :: rest) || infixOf needle rest

/-- Python's `needle in hay` on strings. -/
def strContains (hay needle : String) : Bool :=
  infixOf needle.toList hay.toList

/-- Embedding of `SetupPyConverter.can_parse` (setuppy.py lines 62-71).
The path is represented by its file name; `content` is the optional text. -/
def can_parse (pathName : String) (content : Option String) : Bool :=
  if pathName = "setup.py" then true
  else
    match content with
    | none => false
    | some c =>
      if c = "" then false
      else if !strContains c "setuptools" && !strContains c "distutils" then false
      else strContains c "setup("

/-- C2: `can_parse` is true for any path named exactly `setup.py` regardless of
content; with no content and another name it is false; with content it is true
iff the content mentions `setuptools` or `distutils` and contains `setup(`. -/
theorem can_parse_spec (p : String) (c : Option String) :
    (p = "setup.py" → can_parse p c = true)
    ∧ (p ≠ "setup.py" → c = none → can_parse p c = false)
    ∧ (∀ s, p ≠ "setup.py" → c = some s →
        can_parse p c
          = ((strContains s "setuptools" || strContains s "distutils")
              && strContains s "setup(")) := by
  refine ⟨fun h => by simp [can_parse, h], fun hp hc => by simp [can_parse, hp, hc], ?_⟩
  intro s hp hc
  subst hc
  simp only [can_parse, if_neg hp]
  by_cases hs : s = ""
  · subst hs
    rfl
  · simp only [if_neg hs]
    cases hA : strContains s "setuptools" <;>
      cases hB : strContains s "distutils" <;>
        cases hC : strContains s "setup(" <;> simp

/-- Witness for C2 at concrete inputs: the canonical name always parses; a
different name with no content does not; content with `setup(` but neither
toolchain name does not. -/
theorem can_parse_spec_witness :
    can_parse "setup.py" (some "junk") = true
    ∧ can_parse "other.py" none = false
    ∧ can_parse "other.py" (some "setup(name)") = false := by
  refine ⟨(can_parse_spec "setup.py" (some "junk")).1 rfl,
    (can_parse_spec "other.py" none).2.1 (by decide) rfl, ?_⟩
  have h := (can_parse_spec "other.py" (some "setup(name)")).2.2 "setup(name)"
    (by decide) rfl
  rw [h]
  decide

/-- Discriminated union of dependency links (`dephell_links`): local file,
local directory, VCS reference (with VCS name and optional revision), remote
URL, or some other kind. Each carries its canonical `short` form. -/
inductive Link where
| file (short : String)
| dir (short : String)
| vcs (vcs : String) (short : String) (rev : Option String)
| url (short : String)
| other
deriving DecidableEq

/-- A parsed dependency requirement as `dumps` consumes it: normalized name,
raw name, extras, version specifier text (empty when absent), marker text
(empty when absent), the extras-environments it belongs to (`req.main_envs`),
the dependency's source link (`req.dep.link`), and the pinned release version
(`req.release`, `none` when absent). -/
structure Req where
  name : String
  raw_name : String
  extras : List String
  version : String
  markers : String
  main_envs : List String
  link : Option Link
  release : Option String
deriving DecidableEq

/-- Embedding of `SetupPyConverter._format_req` (lines 316-325): name, then
`[extras]`, then the version specifier, then `; marker`, each part only when
present. -/
def format_req (req : Req) : String :=
  let line := req.raw_name
  let line := if req.extras ≠ [] then
    line ++ "[" ++ String.intercalate "," req.extras ++ "]" else line
  let line := if req.version ≠ "" then line ++ req.version else line
  if req.markers ≠ "" then line ++ "; " ++ req.markers else line

/-- Embedding of `SetupPyConverter._format_link` (lines 327-346). The egg
fragment is `#egg=name`, extended with `-version` when a release is pinned;
file and directory links return their short form, VCS links the form
`vcs+short[@rev]` followed by the egg fragment, URL links `short` followed by
the egg fragment, and anything else raises `ValueError`. -/
def format_link (req : Req) : Except String String :=
  let egg := "#egg=" ++ req.name
    ++ (match req.release with | some v => "-" ++ v | none => "")
  match req.link with
  | some (.file short) => .ok short
  | some (.dir short) => .ok short
  | some (.vcs vcs short rev) =>
    let result := vcs ++ "+" ++ short
    let result := match rev with | some r => result ++ "@" ++ r | none => result
    .ok (result ++ egg)
  | some (.url short) => .ok (short ++ egg)
  | _ => .error ("invalid link for " ++ req.name)

/-- C3: the dumped dependency link is determined by the link kind: file and
directory links render as their short form with no egg fragment; VCS links as
`vcs+short[@rev]#egg=name[-version]` with `@rev` omitted when the revision is
absent and `-version` omitted when the release is absent; URL links as
`short#egg=name[-version]`; any other kind is an error. -/
theorem format_link_spec (req : Req) :
    (∀ s, req.link = some (.file s) → format_link req = .ok s)
    ∧ (∀ s, req.link = some (.dir s) → format_link req = .ok s)
    ∧ (∀ v s r rel, req.link = some (.vcs v s (some r)) → req.release = some rel →
        format_link req = .ok (v ++ "+" ++ s ++ "@" ++ r ++ "#egg=" ++ req.name ++ "-" ++ rel))
    ∧ (∀ v s r, req.link = some (.vcs v s (some r)) → req.release = none →
        format_link req = .ok (v ++ "+" ++ s ++ "@" ++ r ++ "#egg=" ++ req.name))
    ∧ (∀ v s rel, req.link = some (.vcs v s none) → req.release = some rel →
        format_link req = .ok (v ++ "+" ++ s ++ "#egg=" ++ req.name ++ "-" ++ rel))
    ∧ (∀ v s, req.link = some (.vcs v s none) → req.release = none →
        format_link req = .ok (v ++ "+" ++ s ++ "#egg=" ++ req.name))
    ∧ (∀ s rel, req.link = some (.url s) → req.release = some rel →
        format_link req = .ok (s ++ "#egg=" ++ req.name ++ "-" ++ rel))
    ∧ (∀ s, req.link = some (.url s) → req.release = none →
        format_link req = .ok (s ++ "#egg=" ++ req.name))
    ∧ (req.link = some .other →
        format_link req = .error ("invalid link for " ++ req.name)) := by
  refine ⟨?_, ?_, ?_, ?_, ?_, ?_, ?_, ?_, ?_⟩ <;>
    intros <;>
      simp_all [format_link, String.append_assoc]

/-- Witness for C3 at a concrete requirement: a VCS link with a revision and a
pinned release renders in the exact documented form. -/
theorem format_link_spec_witness :
    format_link
      { name := "pkg", raw_name := "Pkg", extras := [], version := "",
        markers := "", main_envs := [],
        link := some (.vcs "git" "https://host/repo" (some "abc")),
        release := some "1.2" }
      = .ok "git+https://host/repo@abc#egg=pkg-1.2" := by
  have h := (format_link_spec
    { name := "pkg", raw_name := "Pkg", extras := [], version := "",
      markers := "", main_envs := [],
      link := some (.vcs "git" "https://host/repo" (some "abc")),
      release := some "1.2" }).2.2.1 "git" "https://host/repo" "abc" "1.2" rfl rfl
  rw [h]
  rfl

/-- One call to `root.attach_dependencies(DependencyMaker.from_requirement(...))`
during `load`: the requirement text and the `marker` and `envs` keyword
arguments passed (or not passed, `none`) to `DependencyMaker.from_requirement`. -/
structure AttachedDep where
  req : String
  marker : Option String
  envs : Option (Finset String)
deriving DecidableEq

/-- Embedding of the dependency and extras loops of `SetupPyConverter.load`
(lines 131-151): `install_requires` entries are attached with no marker and no
environments; each `extras_require` key is split by the (externally defined)
`_split_extra_and_marker` into an extras name and an optional marker, and its
requirements are attached with that marker and the environment set
`{extra}` when the extras name is `dev`, else `{main, extra}`. -/
def load_deps (install_requires : List String)
    (extras_require : List (String × List String))
    (split : String → String × Option String) : List AttachedDep :=
  install_requires.map (fun r => ⟨r, none, none⟩)
    ++ extras_require.flatMap (fun p =>
        let extra := (split p.1).1
        let marker := (split p.1).2
        let envs : Finset String :=
          if extra = "dev" then {"dev"} else {"main", extra}
        p.2.map (fun r => ⟨r, marker, some envs⟩))

/-- C4: for every `extras_require` entry, after the key is split into an extras
name and an optional marker, each of its requirements is attached with the
environment set exactly `{dev}` when the extras name is `dev` and exactly
`{main, name}` otherwise; `install_requires` entries are attached
unconditionally with no environments and no marker. -/
theorem load_deps_envs_spec (install_requires : List String)
    (extras_require : List (String × List String))
    (split : String → String × Option String) :
    (∀ r, r ∈ install_requires →
        AttachedDep.mk r none none ∈ load_deps install_requires extras_require split)
    ∧ (∀ key reqs r, (key, reqs) ∈ extras_require → r ∈ reqs →
        AttachedDep.mk r (split key).2
          (some (if (split key).1 = "dev" then {"dev"}
            else insert "main" {(split key).1}))
          ∈ load_deps install_requires extras_require split)
    ∧ (∀ a, a ∈ load_deps install_requires extras_require split → a.envs = none →
        a.marker = none ∧ a.req ∈ install_requires) := by
  refine ⟨?_, ?_, ?_⟩
  · intro r hr
    exact List.mem_append_left _ (List.mem_map_of_mem _ hr)
  · intro key reqs r hk hr
    refine List.mem_append_right _ ?_
    rw [List.mem_flatMap]
    refine ⟨(key, reqs), hk, ?_⟩
    simpa using List.mem_map_of_mem (fun r => AttachedDep.mk r (split key).2
      (some (if (split key).1 = "dev" then {"dev"} else insert "main" {(split key).1}))) hr
  · intro a ha hnone
    rcases List.mem_append.1 ha with h | h
    · rcases List.mem_map.1 h with ⟨r, hr, rfl⟩
      exact ⟨rfl, hr⟩
    · exfalso
      rcases List.mem_flatMap.1 h with ⟨p, _, hp⟩
      rcases List.mem_map.1 hp with ⟨r, _, rfl⟩
      simp at hnone

/-- Witness for C4 at concrete inputs: a plain requirement, a `dev` extra and
a `docs` extra land with the documented environment sets. -/
theorem load_deps_envs_spec_witness :
    AttachedDep.mk "six" none none
      ∈ load_deps ["six"] [("dev", ["pytest"]), ("docs", ["sphinx"])]
          (fun s => (s, none))
    ∧ AttachedDep.mk "pytest" none (some {"dev"})
      ∈ load_deps ["six"] [("dev", ["pytest"]), ("docs", ["sphinx"])]
          (fun s => (s, none))
    ∧ AttachedDep.mk "sphinx" none (some (insert "main" {"docs"}))
      ∈ load_deps ["six"] [("dev", ["pytest"]), ("docs", ["sphinx"])]
          (fun s => (s, none)) := by
  have h := load_deps_envs_spec ["six"] [("dev", ["pytest"]), ("docs", ["sphinx"])]
    (fun s => (s, none))
  refine ⟨h.1 "six" (by decide), ?_, ?_⟩
  · have h2 := h.2.1 "dev" ["pytest"] "pytest" (by simp) (by simp)
    simpa using h2
  · have h3 := h.2.1 "docs" ["sphinx"] "sphinx" (by simp) (by simp)
    simpa using h3

/-- Character in the regex set `[a-z]`. -/
def isLowerAZ (c : Char) : Bool := 'a' ≤ c && c ≤ 'z'

/-- Character in the regex set `[a-z0-9.]` of the first rewrite pattern. -/
def isCharA (c : Char) : Bool := isLowerAZ c || ('0' ≤ c && c ≤ '9') || c = '.'

/-- Character in the regex set `[a-z0-9._]` of the third rewrite pattern. -/
def isCharB (c : Char) : Bool := isCharA c || c = '_'

/-- Character in the regex set `[_a-z]` of the third rewrite pattern. -/
def isStartB (c : Char) : Bool := isLowerAZ c || c = '_'

/-- Attempt to read the literal `.setup(` at the head of the input, returning
the remainder after it. -/
def tryDotSetup (l : List Char) : Option (List Char) :=
  if ".setup(".toList.isPrefixOf l then some (l.drop 7) else none

/-- Backtracking tail of the pattern `[a-z][a-z0-9.]*\.setup\(` after its first
character: greedily extend `[a-z0-9.]*`, backtracking until `.setup(` matches;
returns the remainder after the full match. -/
def greedyA : List Char → Option (List Char)
| [] => tryDotSetup []
| c :: rest =>
  if isCharA c then
    match greedyA rest with
    | some r => some r
    | none => tryDotSetup (c :: rest)
  else tryDotSetup (c :: rest)

theorem tryDotSetup_length {l r : List Char} (h : tryDotSetup l = some r) :
    r.length + 7 ≤ l.length := by
  unfold tryDotSetup at h
  split at h
  · rename_i hpre
    have hp : ".setup(".toList <+: l := by
      exact List.isPrefixOf_iff_prefix.1 hpre
    have hlen : 7 ≤ l.length := by
      have := hp.length_le
      simpa using this
    cases h
    simp [List.length_drop]
    omega
  · cases h

theorem greedyA_length : ∀ l r, greedyA l = some r → r.length + 7 ≤ l.length := by
  intro l
  induction l with
  | nil => intro r h; exact tryDotSetup_length h
  | cons c rest ih =>
    intro r h
    unfold greedyA at h
    split at h
    · cases hrec : greedyA rest with
      | some r2 =>
        rw [hrec] at h
        cases h
        have := ih _ hrec
        simp [List.length_cons]
        omega
      | none =>
        rw [hrec] at h
        exact tryDotSetup_length h
    · exact tryDotSetup_length h

/-- Attempt to read the literal `setup(` at the head of the input, returning
the remainder after it. -/
def trySetupParen (l : List Char) : Option (List Char) :=
  if "setup(".toList.isPrefixOf l then some (l.drop 6) else none

/-- Backtracking tail of the pattern `([_a-z][a-z0-9._]*)setup\(` after its
first character: greedily extend `[a-z0-9._]*`, backtracking until `setup(`
matches; returns the star-consumed group characters and the remainder. -/
def greedyB : List Char → Option (List Char × List Char)
| [] =>
  match trySetupParen [] with
  | some r => some ([], r)
  | none => none
| c :: rest =>
  if isCharB c then
    match greedyB rest with
    | some (g, r) => some (c :: g, r)
    | none =>
      match trySetupParen (c :: rest) with
      | some r => some ([], r)
      | none => none
  else
    match trySetupParen (c :: rest) with
    | some r => some ([], r)
    | none => none

theorem trySetupParen_length {l r : List Char} (h : trySetupParen l = some r) :
    r.length + 6 ≤ l.length := by
  unfold trySetupParen at h
  split at h
  · rename_i hpre
    have hp : "setup(".toList <+: l := List.isPrefixOf_iff_prefix.1 hpre
    have hlen : 6 ≤ l.length := by
      have := hp.length_le
      simpa using this
    cases h
    simp [List.length_drop]
    omega
  · cases h

theorem greedyB_length : ∀ l g r, greedyB l = some (g, r) → r.length + 6 ≤ l.length := by
  intro l
  induction l with
  | nil =>
    intro g r h
    unfold greedyB at h
    cases ht : trySetupParen [] with
    | some r2 => rw [ht] at h; cases h; exact trySetupParen_length ht
    | none => rw [ht] at h; cases h
  | cons c rest ih =>
    intro g r h
    unfold greedyB at h
    split at h
    · cases hrec : greedyB rest with
      | some p =>
        rw [hrec] at h
        cases h
        have := ih p.1 p.2 (by rw [hrec])
        simp [List.length_cons]
        omega
      | none =>
        rw [hrec] at h
        cases ht : trySetupParen (c :: rest) with
        | some r2 => rw [ht] at h; cases h; exact trySetupParen_length ht
        | none => rw [ht] at h; cases h
    · cases ht : trySetupParen (c :: rest) with
      | some r2 => rw [ht] at h; cases h; exact trySetupParen_length ht
      | none => rw [ht] at h; cases h

/-- Left-to-right, non-overlapping substitution of the pattern
`[a-z][a-z0-9.]*\.setup\(` by `setup(`, as in
`sub(r'[a-z][a-z0-9.]*\.setup\(', 'setup(', source)`. -/
def subA : List Char → List Char
| [] => []
| c :: rest =>
  if isLowerAZ c then
    match hg : greedyA rest with
    | some r => "setup(".toList ++ subA r
    | none => c :: subA rest
  else c :: subA rest
termination_by l => l.length
decreasing_by
· have := greedyA_length rest r hg
  simp [List.length_cons]
  omega
· simp [List.length_cons]
· simp [List.length_cons]

/-- Left-to-right, non-overlapping substitution of the pattern
`([_a-z][a-z0-9._]*)setup\(` by `setup\1(`, as in
`sub(r'([_a-z][a-z0-9._]*)setup\(', r'setup\1(', new_source)`. -/
def subB : List Char → List Char
| [] => []
| c :: rest =>
  if isStartB c then
    match hg : greedyB rest with
    | some (g, r) => "setup".toList ++ (c :: g) ++ '(' :: subB r
    | none => c :: subB rest
  else c :: subB rest
termination_by l => l.length
decreasing_by
· have := greedyB_length rest g r hg
  simp [List.length_cons]
  omega
· simp [List.length_cons]
· simp [List.length_cons]

/-- Left-to-right, non-overlapping replacement of the nonempty literal pattern
`p :: ps` by `rep`, the semantics of Python `str.replace`. -/
def replaceAllGo (p : Char) (ps : List Char) (rep : List Char) : List Char → List Char
| [] => []
| c :: rest =>
  if (p :: ps).isPrefixOf (c :: rest) then
    rep ++ replaceAllGo p ps rep (rest.drop ps.length)
  else c :: replaceAllGo p ps rep rest
termination_by l => l.length
decreasing_by
· have := List.length_drop ps.length rest
  simp [List.length_cons]
  omega
· simp [List.length_cons]

/-- Python `s.replace(pat, rep)` for a nonempty literal pattern (all the
patterns `_execute` replaces are nonempty literals). -/
def strReplace (s pat rep : String) : String :=
  match pat.toList with
  | [] => s
  | p :: ps => String.mk (replaceAllGo p ps rep.toList s.toList)

/-- Embedding of the source-rewriting chain of `SetupPyConverter._execute`
(lines 260-267): drop dotted module prefixes before `setup(`, drop
`return` before `setup(`, move a function-name prefix ending in `setup`
behind it, and finally turn every `setup(` call into the capturing
`global _dist; _dist = dict(` assignment. -/
def rewrite (source : String) : String :=
  let s1 := String.mk (subA source.toList)
  let s2 := strReplace s1 "return setup(" "setup("
  let s3 := String.mk (subB s2.toList)
  strReplace s3 "setup(" "global _dist; _dist = dict("

/-- Typed view of the captured `_dist` keyword arguments (the metadata object
`Distribution(dist)` hands back to `load`): each field holds the value passed
to the registration call, `none`/`[]` when never passed. `keywords` is the
single string `setup` receives; `entry_points` maps a group to its specifier
strings. -/
structure Info where
  name : Option String := none
  version : Option String := none
  description : Option String := none
  license : Option String := none
  keywords : Option String := none
  classifiers : Option (List String) := none
  platforms : Option (List String) := none
  python_requires : Option String := none
  url : Option String := none
  download_url : Option String := none
  author : Option String := none
  author_email : Option String := none
  maintainer : Option String := none
  maintainer_email : Option String := none
  project_urls : Option (List (String × String)) := none
  entry_points : List (String × List String) := []
  install_requires : List String := []
  extras_require : List (String × List String) := []
  dependency_links : List String := []
deriving DecidableEq

/-- Python `str.strip()`: remove leading and trailing whitespace. -/
def pyStrip (s : String) : String :=
  String.mk (((s.toList.dropWhile Char.isWhitespace).reverse.dropWhile
    Char.isWhitespace).reverse)

/-- Embedding of `SetupPyConverter._get` (lines 288-298) on the typed field:
absent or empty values give the empty string, the sentinel `UNKNOWN` gives the
empty string, and any other value is stripped of surrounding whitespace. -/
def getStr : Option String → String
| none => ""
| some s => if s = "" then "" else if s = "UNKNOWN" then "" else pyStrip s

/-- Embedding of `SetupPyConverter._get_list` (lines 300-314) for a list-valued
field other than `keywords`: absent gives the empty tuple, and entries equal to
`UNKNOWN` or whitespace-only are dropped (surviving entries are unchanged). -/
def getList : Option (List String) → List String
| none => []
| some l => l.filter (fun s => !(s == "UNKNOWN") && !(pyStrip s == ""))

/-- Accumulating scanner behind `wsTokens`: `cur` holds the characters of the
token being read, in reverse. -/
def wsTokensGo (cur : List Char) : List Char → List (List Char)
| [] => if cur.isEmpty then [] else [cur.reverse]
| c :: rest =>
  if Char.isWhitespace c then
    if cur.isEmpty then wsTokensGo [] rest
    else cur.reverse :: wsTokensGo [] rest
  else wsTokensGo (c :: cur) rest

/-- Whitespace tokenization over characters: maximal runs of non-whitespace
characters, the semantics of Python `str.split()` with no argument. -/
def wsTokens (l : List Char) : List (List Char) := wsTokensGo [] l

/-- Python `s.split()` on a string. -/
def splitWs (s : String) : List String := (wsTokens s.toList).map String.mk

/-- The `keywords` branch of `_get_list` (line 303):
`' '.join(msg.get_keywords()).split()`. `Distribution.get_keywords` is the
external accessor of the stored keywords value; joining its tokens with single
spaces and re-splitting on whitespace is whitespace tokenization of the stored
string. -/
def getKeywordsList (info : Info) : List String :=
  splitWs (info.keywords.getD "")

/-- An author entry of the project model: display name and mail address
(empty string when the metadata supplied none). -/
structure AuthorM where
  name : String
  mail : String
deriving DecidableEq

/-- An entry point of the project model: its group and its specifier text.
The external `EntryPoint.parse(text, group)` pairs the two; `str(entrypoint)`
returns the text. -/
structure EntryPointM where
  group : String
  text : String
deriving DecidableEq

/-- The normalized project model `RootDependency` as `load` builds it,
restricted to the fields the claims mention. -/
structure RootM where
  raw_name : String
  version : String
  description : String
  license : String
  keywords : List String
  classifiers : List String
  platforms : List String
  python : String
  links : List (String × String)
  authors : List AuthorM
  entrypoints : List EntryPointM
deriving DecidableEq

/-- Embedding of the metadata-to-model mapping of `SetupPyConverter.load`
(lines 84-122): tolerant accessors for the scalar fields, `or '0.0.0'` for the
version, whitespace-tokenized keywords, filtered classifier and platform
lists, the `home`/`download` links from `url`/`download_url`, up to two
authors from the author and maintainer fields, and entry points flattened
from the group mapping. -/
def load_root (info : Info) : RootM where
  raw_name := getStr info.name
  version := if getStr info.version = "" then "0.0.0" else getStr info.version
  description := getStr info.description
  license := getStr info.license
  keywords := getKeywordsList info
  classifiers := getList info.classifiers
  platforms := getList info.platforms
  python := getStr info.python_requires
  links :=
    (if getStr info.url ≠ "" then [("home", getStr info.url)] else [])
    ++ (if getStr info.download_url ≠ "" then
        [("download", getStr info.download_url)] else [])
  authors :=
    (if getStr info.author ≠ "" then
      [⟨getStr info.author, getStr info.author_email⟩] else [])
    ++ (if getStr info.maintainer ≠ "" then
        [⟨getStr info.maintainer, getStr info.maintainer_email⟩] else [])
  entrypoints :=
    info.entry_points.flatMap (fun p => p.2.map (fun t => ⟨p.1, t⟩))

/-- Outcome of running the rewritten script in its isolated namespace: either
the `exec` finished normally, or it raised an exception with the given
message (which `_execute` catches and logs); in both cases `dist` is the value
the capture variable `_dist` holds afterwards, `none` when the rewritten
registration call was never reached. -/
inductive ExecOutcome where
| ok (dist : Option Info)
| err (msg : String) (dist : Option Info)
deriving DecidableEq

/-- Embedding of `SetupPyConverter._execute` (lines 257-286): when the rewrite
changes nothing, log `cannot modify source` and return no metadata; otherwise
run the rewritten source (an exception is caught and logged); when the capture
variable was never set, log `distribution was not called` and return no
metadata; otherwise return the captured metadata. Results are the log lines
and the optional metadata. -/
def execute (source : String) (outcome : ExecOutcome) : List String × Option Info :=
  if rewrite source = source then (["cannot modify source"], none)
  else
    let step : List String × Option Info :=
      match outcome with
      | .ok d => ([], d)
      | .err m d => ([m], d)
    match step.2 with
    | none => (step.1 ++ ["distribution was not called"], none)
    | some d => (step.1, some d)

/-- The metadata-acquisition part of `SetupPyConverter.load` (lines 79-82):
take the metadata `_execute` captured; when there is none, fall back to
`distutils.core.run_setup` on the unmodified script. `run_setup` is an
external call that either returns a metadata object or raises. -/
def load_info (source : String) (outcome : ExecOutcome)
    (run_setup : Except String Info) : Except String Info :=
  match (execute source outcome).2 with
  | some i => .ok i
  | none => run_setup

/-- Embedding of `SetupPyConverter.load`: acquire the metadata, then map it
onto the project model. An `Except.error` is an exception propagating out of
`load`. -/
def load (source : String) (outcome : ExecOutcome)
    (run_setup : Except String Info) : Except String RootM :=
  (load_info source outcome run_setup).map load_root

/-- The rewrite chain leaves a script without any registration call unchanged. -/
theorem rewrite_x1 : rewrite "x = 1" = "x = 1" := by
  simp [rewrite, strReplace, subA, subB, greedyA, greedyB, tryDotSetup,
    trySetupParen, isLowerAZ, isCharA, isCharB, isStartB, replaceAllGo,
    List.isPrefixOf]

/-- The rewrite chain turns a bare registration call into the capturing
assignment. -/
theorem rewrite_setup : rewrite "setup()" = "global _dist; _dist = dict()" := by
  simp [rewrite, strReplace, subA, subB, greedyA, greedyB, tryDotSetup,
    trySetupParen, isLowerAZ, isCharA, isCharB, isStartB, replaceAllGo,
    List.isPrefixOf]

/-- C5: when rewriting changes nothing, `_execute` logs `cannot modify source`
and returns no metadata; when the rewritten script runs but the capture
variable is never set, it logs `distribution was not called` and returns no
metadata; and whenever `_execute` returns no metadata, `load` obtains its
metadata object from the fallback `run_setup` call on the unmodified script. -/
theorem execute_fallback_spec (source : String) (oc : ExecOutcome)
    (rs : Except String Info) :
    (rewrite source = source →
      execute source oc = (["cannot modify source"], none))
    ∧ (rewrite source ≠ source → oc = ExecOutcome.ok none →
      execute source oc = (["distribution was not called"], none))
    ∧ ((execute source oc).2 = none → load_info source oc rs = rs) := by
  refine ⟨fun h => by simp [execute, h], ?_, ?_⟩
  · intro h hoc
    subst hoc
    simp [execute, h]
  · intro h
    simp [load_info, h]

/-- Witness for C5: a script the rewrite cannot touch yields the
`cannot modify source` outcome; a rewritable script that never reaches the
registration call yields the `distribution was not called` outcome; in the
first case `load` takes the fallback metadata verbatim. -/
theorem execute_fallback_spec_witness :
    execute "x = 1" (ExecOutcome.ok none) = (["cannot modify source"], none)
    ∧ execute "setup()" (ExecOutcome.ok none)
      = (["distribution was not called"], none)
    ∧ load_info "x = 1" (ExecOutcome.ok none) (Except.ok { name := some "pkg" })
      = Except.ok { name := some "pkg" } := by
  have hne : rewrite "setup()" ≠ "setup()" := by
    rw [rewrite_setup]
    decide
  have h1 := (execute_fallback_spec "x = 1" (ExecOutcome.ok none)
    (Except.ok { name := some "pkg" })).1 rewrite_x1
  have h2 := (execute_fallback_spec "setup()" (ExecOutcome.ok none)
    (Except.ok { name := some "pkg" })).2.1 hne rfl
  have h3 := (execute_fallback_spec "x = 1" (ExecOutcome.ok none)
    (Except.ok { name := some "pkg" })).2.2 (by rw [h1])
  exact ⟨h1, h2, h3⟩

/-- C6 counterexample: `load` propagates an exception for a script the
rewrite cannot modify when the unguarded fallback `run_setup` raises (as
`distutils.core.run_setup` does for a script that never calls `setup`), so
`load` is not raise-free for malformed or unexecutable scripts. -/
theorem load_raises_ce :
    load "x = 1" (ExecOutcome.ok none) (Except.error "RuntimeError")
      = Except.error "RuntimeError" := by
  have h1 : (execute "x = 1" (ExecOutcome.ok none)).2 = none := by
    simp [execute, rewrite_x1]
  simp [load, load_info, h1, Except.map]

/-- C6 amended: an exception raised while executing the rewritten source is
caught — it only adds a log line and leaves the captured metadata as it was —
and `load` returns a model whenever `_execute` captured metadata or the
fallback `run_setup` returns normally; `load` propagates an exception only
when the fallback itself raises. -/
theorem load_total_spec (source : String) (oc : ExecOutcome)
    (rs : Except String Info) :
    (∀ m d, oc = ExecOutcome.err m d → rewrite source ≠ source →
      (execute source oc).2 = d ∧ m ∈ (execute source oc).1)
    ∧ (∀ i, (execute source oc).2 = some i →
      load source oc rs = Except.ok (load_root i))
    ∧ (∀ i, rs = Except.ok i → (load source oc rs).isOk = true)
    ∧ (∀ e, load source oc rs = Except.error e → rs = Except.error e) := by
  refine ⟨?_, ?_, ?_, ?_⟩
  · intro m d h hne
    subst h
    cases d <;> simp [execute, hne]
  · intro i h
    simp [load, load_info, h, Except.map]
  · intro i h
    cases hx : (execute source oc).2 with
    | some j => simp [load, load_info, hx, Except.map, Except.isOk, Except.toBool]
    | none => simp [load, load_info, hx, h, Except.map, Except.isOk, Except.toBool]
  · intro e h
    cases hx : (execute source oc).2 with
    | some j => simp [load, load_info, hx, Except.map] at h
    | none =>
      simp [load, load_info, hx] at h
      cases rs with
      | ok i => simp [Except.map] at h
      | error e2 =>
        simp [Except.map] at h
        rw [h]

/-- Witness for C6 (amended): with captured metadata present, `load` succeeds
even though the fallback would raise; with a failing script and a succeeding
fallback, `load` also succeeds. -/
theorem load_total_spec_witness :
    load "setup()" (ExecOutcome.ok (some {})) (Except.error "boom")
      = Except.ok (load_root {})
    ∧ (load "x = 1" (ExecOutcome.ok none) (Except.ok {})).isOk = true := by
  have hne : rewrite "setup()" ≠ "setup()" := by
    rw [rewrite_setup]
    decide
  have hx : (execute "setup()" (ExecOutcome.ok (some {}))).2 = some {} := by
    simp [execute, hne]
  exact ⟨(load_total_spec "setup()" (ExecOutcome.ok (some {}))
      (Except.error "boom")).2.1 {} hx,
    (load_total_spec "x = 1" (ExecOutcome.ok none) (Except.ok {})).2.2.1 {} rfl⟩

/-- C7 counterexample: loading a metadata object that supplies neither name
nor version yields a model whose name is empty (no name is present) and whose
version is the sentinel `0.0.0`, not a literal `unreleased` value. -/
theorem load_root_defaults_ce :
    ¬ ((load_root {}).raw_name ≠ "" ∧ (load_root {}).version = "unreleased") := by
  decide

/-- C7 amended: the loaded model always carries a nonempty version — exactly
the metadata's version when one survives the tolerant accessor, and the
sentinel `0.0.0` when the metadata supplies none — while the name is whatever
the tolerant accessor recovers, possibly the empty string. -/
theorem load_root_version_spec (info : Info) :
    (load_root info).version ≠ ""
    ∧ (getStr info.version = "" → (load_root info).version = "0.0.0")
    ∧ (getStr info.version ≠ "" → (load_root info).version = getStr info.version)
    ∧ (load_root info).raw_name = getStr info.name := by
  refine ⟨?_, fun h => by simp [load_root, h], fun h => by simp [load_root, h], rfl⟩
  by_cases h : getStr info.version = "" <;> simp [load_root, h]

/-- Witness for C7 (amended): with no version the sentinel `0.0.0` appears;
with version `1.2` the version is recovered. -/
theorem load_root_version_spec_witness :
    (load_root {}).version = "0.0.0"
    ∧ (load_root { version := some "1.2" }).version = "1.2" := by
  refine ⟨(load_root_version_spec {}).2.1 rfl, ?_⟩
  have h := (load_root_version_spec { version := some "1.2" }).2.2.1 (by decide)
  rw [h]
  decide

/-- First value bound to a key in a string-keyed association list (Python
`mapping[key]` for the mappings this converter builds, whose keys are
unique). -/
def lookupF {α : Type} (k : String) : List (String × α) → Option α
| [] => none
| (k2, v) :: rest => if k2 = k then some v else lookupF k rest

/-- A value of a keyword argument `dumps` emits: a string, a list of strings,
a string-to-string mapping, or a string-to-string-list mapping (the latter two
are serialized through `json_dumps(value, sort_keys=True)`). -/
inductive Val where
| str (s : String)
| strs (l : List String)
| pairs (l : List (String × String))
| groups (l : List (String × List String))
deriving DecidableEq

/-- A package-data rule of the external package-discovery root: owning module
and relative path. -/
structure DataRule where
  module : String
  relative : String
deriving DecidableEq

/-- The package view of the project (`project.package`): discovered packages,
the package-directory mapping, and the data rules. -/
structure PackageM where
  packages : List String := []
  package_dir : List (String × String) := []
  data : List DataRule := []
deriving DecidableEq

/-- The project model `RootDependency` as `dumps` reads it. `python` is the
canonical string of the range specifier (empty when unset, matching its
falsiness); `links` is the link mapping as an association list. -/
structure Project where
  raw_name : String := ""
  version : String := ""
  description : String := ""
  python : String := ""
  links : List (String × String) := []
  authors : List AuthorM := []
  license : String := ""
  keywords : List String := []
  classifiers : List String := []
  platforms : List String := []
  entrypoints : List EntryPointM := []
  package : PackageM := {}
deriving DecidableEq

/-- Modelled from the spec: `RangeSpecifier.peppify` of the external
`dephell_specifier` collaborator renders the python constraint in its
canonical string form; constraints are carried as canonical strings here, so
the rendering is the identity on them. -/
def peppify (s : String) : String := s

/-- One `if condition: content.append((name, value))` step of `dumps`. -/
def optF (c : Prop) [Decidable c] (name : String) (v : Val) : List (String × Val) :=
  if c then [(name, v)] else []

/-- One `if key in mapping: content.append((name, mapping[key]))` step of
`dumps`, applied to the optional looked-up value. -/
def keyedOpt (name : String) (o : Option String) (f : String → Val) :
    List (String × Val) :=
  match o with
  | some v => [(name, f v)]
  | none => []

/-- The `author`/`author_email` fields from the first project author
(lines 179-183). -/
def authorFields (authors : List AuthorM) : List (String × Val) :=
  match authors with
  | [] => []
  | a :: _ => ("author", Val.str a.name) :: optF (a.mail ≠ "") "author_email" (.str a.mail)

/-- The `maintainer`/`maintainer_email` fields from the second project author
(lines 184-188). -/
def maintainerFields (authors : List AuthorM) : List (String × Val) :=
  match authors with
  | _ :: b :: _ =>
    ("maintainer", Val.str b.name) :: optF (b.mail ≠ "") "maintainer_email" (.str b.mail)
  | _ => []

/-- Appending a value to a key's list in an insertion-ordered mapping, the
behaviour of `defaultdict(list)[key].append(value)`. -/
def addToGroup (key : String) (v : String) :
    List (String × List String) → List (String × List String)
| [] => [(key, [v])]
| (k, vs) :: rest =>
  if k = key then (k, vs ++ [v]) :: rest else (k, vs) :: addToGroup key v rest

/-- Grouping of the project entry points by their group (lines 199-202). -/
def groupEntryPoints (eps : List EntryPointM) : List (String × List String) :=
  eps.foldl (fun acc e => addToGroup e.group e.text acc) []

/-- Python `sorted` on strings: a stable sort by the `≤` order. -/
def sortStrs (l : List String) : List String :=
  l.insertionSort (fun a b => a ≤ b)

/-- Grouping of the package data rules by owning module with each path list
sorted (lines 208-211). -/
def groupData (rules : List DataRule) : List (String × List String) :=
  (rules.foldl (fun acc r => addToGroup r.module r.relative acc) []).map
    (fun p => (p.1, sortStrs p.2))

/-- Body of the extras loop of `dumps` (lines 228-232): a requirement with
extras-environments has its formatted form appended under each of them. -/
def extrasStep (acc : List (String × List String)) (r : Req) :
    List (String × List String) :=
  if r.main_envs ≠ [] then
    r.main_envs.foldl (fun acc2 env => addToGroup env (format_req r) acc2) acc
  else acc

/-- Grouping of the requirements carrying extras-environments by each declared
environment (lines 227-232). -/
def groupExtras (reqs : List Req) : List (String × List String) :=
  reqs.foldl extrasStep []

/-- The `dependency_links` collection loop of `dumps` (lines 219-222): format
the link of every requirement that has one, in order; the `ValueError` a bad
link kind raises propagates immediately. -/
def collect_links : List Req → Except String (List String)
| [] => .ok []
| r :: rest =>
  match r.link with
  | none => collect_links rest
  | some _ =>
    match format_link r with
    | .error e => .error e
    | .ok s =>
      match collect_links rest with
      | .error e => .error e
      | .ok ss => .ok (s :: ss)

/-- The ordered `(name, value)` keyword-argument list `dumps` builds
(lines 159-234), given the already-collected `dependency_links` strings. -/
def dumps_fields_core (links : List String) (reqs : List Req)
    (project : Project) : List (String × Val) :=
  [("name", Val.str project.raw_name), ("version", Val.str project.version)]
    ++ optF (project.description ≠ "") "description" (.str project.description)
    ++ optF (project.python ≠ "") "python_requires" (.str (peppify project.python))
    ++ keyedOpt "url" (lookupF "home" project.links) Val.str
    ++ keyedOpt "download_url" (lookupF "download" project.links) Val.str
    ++ optF (project.links ≠ []) "project_urls" (.pairs project.links)
    ++ authorFields project.authors
    ++ maintainerFields project.authors
    ++ optF (project.license ≠ "") "license" (.str project.license)
    ++ optF (project.keywords ≠ []) "keywords"
        (.str (String.intercalate " " project.keywords))
    ++ optF (project.classifiers ≠ []) "classifiers" (.strs project.classifiers)
    ++ optF (project.platforms ≠ []) "platforms" (.strs project.platforms)
    ++ optF (project.entrypoints ≠ []) "entry_points"
        (.groups (groupEntryPoints project.entrypoints))
    ++ [("packages", Val.strs (sortStrs project.package.packages))]
    ++ optF (project.package.package_dir ≠ []) "package_dir"
        (.pairs project.package.package_dir)
    ++ [("package_data", Val.groups (groupData project.package.data))]
    ++ [("install_requires",
        Val.strs ((reqs.filter (fun r => r.main_envs.isEmpty)).map format_req))]
    ++ optF (links ≠ []) "dependency_links" (.strs links)
    ++ optF (groupExtras reqs ≠ []) "extras_require" (.groups (groupExtras reqs))

/-- Embedding of the keyword-argument construction of `SetupPyConverter.dumps`
(lines 159-234): the ordered `(name, value)` list substituted into the script
template, as far as the registration call's keyword arguments are concerned.
An `Except.error` is the `ValueError` a bad link kind raises while the
`dependency_links` list is collected. -/
def dumps_fields (reqs : List Req) (project : Project) :
    Except String (List (String × Val)) := do
  let links ← collect_links reqs
  pure (dumps_fields_core links reqs project)

theorem dumps_fields_ok {reqs : List Req} {project : Project}
    {fs : List (String × Val)} (h : dumps_fields reqs project = .ok fs) :
    ∃ ls, collect_links reqs = .ok ls ∧ fs = dumps_fields_core ls reqs project := by
  cases hc : collect_links reqs with
  | ok ls =>
    refine ⟨ls, rfl, ?_⟩
    simp [dumps_fields, hc] at h
    exact h.symm
  | error e => simp [dumps_fields, hc] at h

theorem lookupF_nil {α : Type} (k : String) : lookupF (α := α) k [] = none := rfl

theorem lookupF_cons {α : Type} (k n : String) (v : α) (l : List (String × α)) :
    lookupF k ((n, v) :: l) = if n = k then some v else lookupF k l := rfl

theorem lookupF_append {α : Type} (k : String) (l1 l2 : List (String × α)) :
    lookupF k (l1 ++ l2) = (lookupF k l1).or (lookupF k l2) := by
  induction l1 with
  | nil => simp [lookupF]
  | cons p rest ih =>
    by_cases h : p.1 = k <;> simp [lookupF, h, ih]

theorem lookupF_optF_ne (k n : String) (c : Prop) [Decidable c] (v : Val)
    (h : n ≠ k) : lookupF k (optF c n v) = none := by
  by_cases hc : c <;> simp [optF, lookupF, hc, h]

theorem lookupF_optF_self (n : String) (c : Prop) [Decidable c] (v : Val) :
    lookupF n (optF c n v) = if c then some v else none := by
  by_cases hc : c <;> simp [optF, lookupF, hc]

theorem lookupF_keyedOpt_ne (k n : String) (o : Option String)
    (f : String → Val) (h : n ≠ k) : lookupF k (keyedOpt n o f) = none := by
  cases o <;> simp [keyedOpt, lookupF, h]

theorem lookupF_keyedOpt_self (n : String) (o : Option String)
    (f : String → Val) : lookupF n (keyedOpt n o f) = o.map f := by
  cases o <;> simp [keyedOpt, lookupF]

theorem lookupF_authorFields_ne (k : String) (authors : List AuthorM)
    (h1 : k ≠ "author") (h2 : k ≠ "author_email") :
    lookupF k (authorFields authors) = none := by
  match authors with
  | [] => simp [authorFields, lookupF]
  | a :: rest =>
    by_cases hm : a.mail ≠ "" <;>
      simp [authorFields, optF, lookupF, hm, Ne.symm h1, Ne.symm h2]

theorem lookupF_maintainerFields_ne (k : String) (authors : List AuthorM)
    (h1 : k ≠ "maintainer") (h2 : k ≠ "maintainer_email") :
    lookupF k (maintainerFields authors) = none := by
  match authors with
  | [] => simp [maintainerFields, lookupF]
  | [a] => simp [maintainerFields, lookupF]
  | a :: b :: rest =>
    by_cases hm : b.mail ≠ "" <;>
      simp [maintainerFields, optF, lookupF, hm, Ne.symm h1, Ne.symm h2]

theorem lookupF_addToGroup_self (key : String) (v : String)
    (g : List (String × List String)) :
    lookupF key (addToGroup key v g) = some ((lookupF key g).getD [] ++ [v]) := by
  induction g with
  | nil => simp [addToGroup, lookupF]
  | cons p rest ih =>
    rcases p with ⟨k, vs⟩
    by_cases hk : k = key
    · subst hk
      simp [addToGroup, lookupF]
    · simp [addToGroup, lookupF, hk, ih]

theorem lookupF_addToGroup_ne (k key : String) (v : String)
    (g : List (String × List String)) (h : key ≠ k) :
    lookupF k (addToGroup key v g) = lookupF k g := by
  induction g with
  | nil => simp [addToGroup, lookupF, h]
  | cons p rest ih =>
    rcases p with ⟨k2, vs⟩
    by_cases hk : k2 = key
    · subst hk
      simp [addToGroup, lookupF, h]
    · simp [addToGroup, lookupF, hk, ih]

theorem addToGroup_mem_mono {k : String} {v : String}
    {g : List (String × List String)} (key2 : String) (v2 : String)
    (h : ∃ vs, lookupF k g = some vs ∧ v ∈ vs) :
    ∃ vs, lookupF k (addToGroup key2 v2 g) = some vs ∧ v ∈ vs := by
  rcases h with ⟨vs, hvs, hv⟩
  by_cases hk : key2 = k
  · subst hk
    refine ⟨(lookupF key2 g).getD [] ++ [v2], lookupF_addToGroup_self key2 v2 g, ?_⟩
    rw [hvs]
    simp [hv]
  · exact ⟨vs, by rw [lookupF_addToGroup_ne k key2 v2 g hk]; exact hvs, hv⟩

theorem envsFold_mem_mono {k v : String} (envs : List String) (fv : String)
    (acc : List (String × List String))
    (h : ∃ vs, lookupF k acc = some vs ∧ v ∈ vs) :
    ∃ vs, lookupF k (envs.foldl (fun a env => addToGroup env fv a) acc) = some vs
      ∧ v ∈ vs := by
  induction envs generalizing acc with
  | nil => exact h
  | cons e rest ih => exact ih _ (addToGroup_mem_mono e fv h)

theorem envsFold_mem_self (envs : List String) (fv : String)
    (acc : List (String × List String)) (env : String) (henv : env ∈ envs) :
    ∃ vs, lookupF env (envs.foldl (fun a e => addToGroup e fv a) acc) = some vs
      ∧ fv ∈ vs := by
  induction envs generalizing acc with
  | nil => cases henv
  | cons e rest ih =>
    rcases List.mem_cons.1 henv with rfl | hmem
    · by_cases hr : env ∈ rest
      · exact ih _ hr
      · refine envsFold_mem_mono rest fv _ ?_
        refine ⟨(lookupF env acc).getD [] ++ [fv], lookupF_addToGroup_self env fv acc, ?_⟩
        simp
    · exact ih _ hmem

theorem extrasStep_mem_mono {env fv : String} (r : Req)
    (acc : List (String × List String))
    (h : ∃ vs, lookupF env acc = some vs ∧ fv ∈ vs) :
    ∃ vs, lookupF env (extrasStep acc r) = some vs ∧ fv ∈ vs := by
  unfold extrasStep
  by_cases hr : r.main_envs ≠ []
  · rw [if_pos hr]
    exact envsFold_mem_mono r.main_envs (format_req r) acc h
  · rw [if_neg hr]
    exact h

theorem groupExtras_fold_mono {env fv : String} (reqs : List Req)
    (acc : List (String × List String))
    (h : ∃ vs, lookupF env acc = some vs ∧ fv ∈ vs) :
    ∃ vs, lookupF env (reqs.foldl extrasStep acc) = some vs ∧ fv ∈ vs := by
  induction reqs generalizing acc with
  | nil => exact h
  | cons r rest ih =>
    rw [List.foldl_cons]
    exact ih _ (extrasStep_mem_mono r acc h)

theorem groupExtras_mem (reqs : List Req) (r : Req) (env : String)
    (hr : r ∈ reqs) (henv : env ∈ r.main_envs) :
    ∃ vs, lookupF env (groupExtras reqs) = some vs ∧ format_req r ∈ vs := by
  unfold groupExtras
  generalize ([] : List (String × List String)) = acc
  induction reqs generalizing acc with
  | nil => cases hr
  | cons r0 rest ih =>
    rw [List.foldl_cons]
    rcases List.mem_cons.1 hr with rfl | hmem
    · have hne : r.main_envs ≠ [] := by
        intro hempty
        rw [hempty] at henv
        cases henv
      refine groupExtras_fold_mono rest _ ?_
      rw [extrasStep, if_pos hne]
      exact envsFold_mem_self r.main_envs (format_req r) acc env henv
    · exact ih hmem _

theorem collect_links_mem : ∀ (reqs : List Req) (ls : List String),
    collect_links reqs = .ok ls → ∀ r ∈ reqs, r.link ≠ none →
      ∃ s, format_link r = .ok s ∧ s ∈ ls := by
  intro reqs
  induction reqs with
  | nil =>
    intro ls h r hr
    cases hr
  | cons r0 rest ih =>
    intro ls h r hr hlink
    rcases List.mem_cons.1 hr with rfl | hmem
    · rcases hl : r.link with _ | lk
      · exact absurd hl hlink
      · rw [collect_links, hl] at h
        cases hf : format_link r with
        | error e => rw [hf] at h; cases h
        | ok s =>
          rw [hf] at h
          cases hrest : collect_links rest with
          | error e => rw [hrest] at h; cases h
          | ok ss =>
            rw [hrest] at h
            injection h with h2
            subst h2
            exact ⟨s, rfl, List.mem_cons_self s ss⟩
    · rcases hl : r0.link with _ | lk
      · rw [collect_links, hl] at h
        exact ih ls h r hmem hlink
      · rw [collect_links, hl] at h
        cases hf : format_link r0 with
        | error e => rw [hf] at h; cases h
        | ok s =>
          rw [hf] at h
          cases hrest : collect_links rest with
          | error e => rw [hrest] at h; cases h
          | ok ss =>
            rw [hrest] at h
            injection h with h2
            subst h2
            rcases ih ss hrest r hmem hlink with ⟨s2, hs2, hmem2⟩
            exact ⟨s2, hs2, List.mem_cons_of_mem s hmem2⟩

/-- All field lookups over the emitted keyword-argument list, shared by the
claim theorems below. -/
theorem core_fields (ls : List String) (reqs : List Req) (project : Project) :
    lookupF "name" (dumps_fields_core ls reqs project)
      = some (.str project.raw_name)
    ∧ lookupF "version" (dumps_fields_core ls reqs project)
      = some (.str project.version)
    ∧ lookupF "description" (dumps_fields_core ls reqs project)
      = (if project.description = "" then none else some (.str project.description))
    ∧ lookupF "python_requires" (dumps_fields_core ls reqs project)
      = (if project.python = "" then none else some (.str (peppify project.python)))
    ∧ lookupF "url" (dumps_fields_core ls reqs project)
      = (lookupF "home" project.links).map Val.str
    ∧ lookupF "download_url" (dumps_fields_core ls reqs project)
      = (lookupF "download" project.links).map Val.str
    ∧ lookupF "project_urls" (dumps_fields_core ls reqs project)
      = (if project.links = [] then none else some (.pairs project.links))
    ∧ lookupF "author" (dumps_fields_core ls reqs project)
      = project.authors.head?.map (fun a => Val.str a.name)
    ∧ lookupF "author_email" (dumps_fields_core ls reqs project)
      = project.authors.head?.bind
          (fun a => if a.mail = "" then none else some (Val.str a.mail))
    ∧ lookupF "maintainer" (dumps_fields_core ls reqs project)
      = (project.authors.drop 1).head?.map (fun a => Val.str a.name)
    ∧ lookupF "maintainer_email" (dumps_fields_core ls reqs project)
      = (project.authors.drop 1).head?.bind
          (fun a => if a.mail = "" then none else some (Val.str a.mail))
    ∧ lookupF "license" (dumps_fields_core ls reqs project)
      = (if project.license = "" then none else some (.str project.license))
    ∧ lookupF "keywords" (dumps_fields_core ls reqs project)
      = (if project.keywords = [] then none
          else some (.str (String.intercalate " " project.keywords)))
    ∧ lookupF "classifiers" (dumps_fields_core ls reqs project)
      = (if project.classifiers = [] then none else some (.strs project.classifiers))
    ∧ lookupF "platforms" (dumps_fields_core ls reqs project)
      = (if project.platforms = [] then none else some (.strs project.platforms))
    ∧ lookupF "entry_points" (dumps_fields_core ls reqs project)
      = (if project.entrypoints = [] then none
          else some (.groups (groupEntryPoints project.entrypoints)))
    ∧ lookupF "packages" (dumps_fields_core ls reqs project)
      = some (.strs (sortStrs project.package.packages))
    ∧ lookupF "package_dir" (dumps_fields_core ls reqs project)
      = (if project.package.package_dir = [] then none
          else some (.pairs project.package.package_dir))
    ∧ lookupF "package_data" (dumps_fields_core ls reqs project)
      = some (.groups (groupData project.package.data))
    ∧ lookupF "install_requires" (dumps_fields_core ls reqs project)
      = some (.strs ((reqs.filter (fun r => r.main_envs.isEmpty)).map format_req))
    ∧ lookupF "dependency_links" (dumps_fields_core ls reqs project)
      = (if ls = [] then none else some (.strs ls))
    ∧ lookupF "extras_require" (dumps_fields_core ls reqs project)
      = (if groupExtras reqs = [] then none
          else some (.groups (groupExtras reqs))) := by
  refine ⟨?_, ?_, ?_, ?_, ?_, ?_, ?_, ?_, ?_, ?_, ?_, ?_, ?_, ?_, ?_, ?_, ?_,
    ?_, ?_, ?_, ?_, ?_⟩ <;>
    simp [dumps_fields_core, lookupF_append, lookupF_cons, lookupF_nil,
      lookupF_optF_ne, lookupF_optF_self, lookupF_keyedOpt_ne, lookupF_keyedOpt_self,
      lookupF_authorFields_ne, lookupF_maintainerFields_ne]
  · rcases project.authors with _ | ⟨a, t⟩ <;>
      simp [authorFields, lookupF, lookupF_append, optF]
  · rcases project.authors with _ | ⟨a, t⟩
    · simp [authorFields, lookupF, lookupF_append]
    · by_cases hma : a.mail = "" <;>
        simp [authorFields, lookupF, lookupF_append, lookupF_optF_ne,
          lookupF_optF_self, optF, hma]
  · rcases project.authors with _ | ⟨a, _ | ⟨b, t⟩⟩ <;>
      simp [maintainerFields, lookupF, lookupF_append, optF]
  · rcases project.authors with _ | ⟨a, _ | ⟨b, t⟩⟩
    · simp [maintainerFields, lookupF, lookupF_append]
    · simp [maintainerFields, lookupF, lookupF_append]
    · by_cases hmb : b.mail = "" <;>
        simp [maintainerFields, lookupF, lookupF_append, lookupF_optF_ne,
          lookupF_optF_self, optF, hmb]

/-- C8: `dumps` partitions the requirement list: requirements with no
extras-environment land in `install_requires`, formatted by `_format_req`;
every requirement with extras-environments appears, with the same formatting,
in the `extras_require` mapping under each of its declared environments; and
`_format_req` renders `name[extras]version; marker` with each optional part
included only when present. -/
theorem dumps_partition_spec (reqs : List Req) (project : Project)
    (fs : List (String × Val)) (h : dumps_fields reqs project = .ok fs) :
    lookupF "install_requires" fs
      = some (.strs ((reqs.filter (fun r => r.main_envs.isEmpty)).map format_req))
    ∧ (∀ r, r ∈ reqs → ∀ env, env ∈ r.main_envs →
        lookupF "extras_require" fs = some (.groups (groupExtras reqs))
        ∧ ∃ vs, lookupF env (groupExtras reqs) = some vs ∧ format_req r ∈ vs)
    ∧ (∀ r : Req, format_req r = r.raw_name
        ++ (if r.extras = [] then "" else
          "[" ++ String.intercalate "," r.extras ++ "]")
        ++ (if r.version = "" then "" else r.version)
        ++ (if r.markers = "" then "" else "; " ++ r.markers)) := by
  obtain ⟨ls, hc, rfl⟩ := dumps_fields_ok h
  obtain ⟨-, -, -, -, -, -, -, -, -, -, -, -, -, -, -, -, -, -, -, hinst, -, hex⟩ :=
    core_fields ls reqs project
  refine ⟨hinst, ?_, ?_⟩
  · intro r hr env henv
    have hmem := groupExtras_mem reqs r env hr henv
    have hne : groupExtras reqs ≠ [] := by
      rcases hmem with ⟨vs, hvs, -⟩
      intro hempty
      rw [hempty] at hvs
      simp [lookupF] at hvs
    rw [hex, if_neg hne]
    exact ⟨rfl, hmem⟩
  · intro r
    unfold format_req
    by_cases h1 : r.extras = [] <;> by_cases h2 : r.version = "" <;>
      by_cases h3 : r.markers = "" <;>
        simp only [h1, h2, h3, ite_true, ite_false, ne_eq, not_true,
          not_false_iff, not_false_eq_true, eq_self_iff_true, if_true,
          if_false, String.append_empty, String.append_assoc]

/-- Requirement without extras-environments used by witnesses. -/
def wReqPlain : Req :=
  { name := "six", raw_name := "six", extras := [], version := "",
    markers := "", main_envs := [], link := none, release := none }

/-- Requirement with a `dev` extras-environment used by witnesses. -/
def wReqExtra : Req :=
  { name := "pytest", raw_name := "pytest", extras := [], version := "",
    markers := "", main_envs := ["dev"], link := none, release := none }

/-- Witness for C8 at a concrete pair of requirements: the plain requirement
lands in `install_requires`, the `dev` one in `extras_require` under `dev`. -/
theorem dumps_partition_spec_witness :
    lookupF "install_requires" (dumps_fields_core [] [wReqPlain, wReqExtra] {})
      = some (.strs ["six"])
    ∧ lookupF "extras_require" (dumps_fields_core [] [wReqPlain, wReqExtra] {})
      = some (.groups [("dev", ["pytest"])]) := by
  have h := dumps_partition_spec [wReqPlain, wReqExtra] {}
    (dumps_fields_core [] [wReqPlain, wReqExtra] {}) rfl
  refine ⟨?_, ?_⟩
  · rw [h.1]
    decide
  · have h2 := h.2.1 wReqExtra (by decide) "dev" (by decide)
    rw [h2.1]
    decide

/-- Whether a field name is emitted at all by a `dumps` outcome. -/
def emitsField (name : String) (e : Except String (List (String × Val))) : Bool :=
  match e with
  | .ok fs => (lookupF name fs).isSome
  | .error _ => false

/-- C9 counterexample: for a project with no package-data rules, `dumps` still
emits the `package_data` keyword argument (with an empty mapping), so the
mapping is not emitted only if present. -/
theorem dumps_package_data_ce :
    ¬ (emitsField "package_data" (dumps_fields [] {}) = true →
        ({} : Project).package.data ≠ []) := by
  decide

/-- C9 amended: each optional metadata field (description, python constraint,
links, authors, license, keywords, classifiers, platforms, entry points) is
emitted exactly when its value is present/non-empty; the package list is
always emitted sorted; the package-directory mapping is emitted only if
present; the package-data mapping is always emitted (possibly empty), grouped
by owning package with each value list sorted. -/
theorem dumps_optional_fields_spec (reqs : List Req) (project : Project)
    (fs : List (String × Val)) (h : dumps_fields reqs project = .ok fs) :
    lookupF "description" fs
      = (if project.description = "" then none else some (.str project.description))
    ∧ lookupF "python_requires" fs
      = (if project.python = "" then none else some (.str (peppify project.python)))
    ∧ lookupF "url" fs = (lookupF "home" project.links).map Val.str
    ∧ lookupF "download_url" fs = (lookupF "download" project.links).map Val.str
    ∧ lookupF "project_urls" fs
      = (if project.links = [] then none else some (.pairs project.links))
    ∧ lookupF "author" fs = project.authors.head?.map (fun a => Val.str a.name)
    ∧ lookupF "maintainer" fs
      = (project.authors.drop 1).head?.map (fun a => Val.str a.name)
    ∧ lookupF "license" fs
      = (if project.license = "" then none else some (.str project.license))
    ∧ lookupF "keywords" fs
      = (if project.keywords = [] then none
          else some (.str (String.intercalate " " project.keywords)))
    ∧ lookupF "classifiers" fs
      = (if project.classifiers = [] then none else some (.strs project.classifiers))
    ∧ lookupF "platforms" fs
      = (if project.platforms = [] then none else some (.strs project.platforms))
    ∧ lookupF "entry_points" fs
      = (if project.entrypoints = [] then none
          else some (.groups (groupEntryPoints project.entrypoints)))
    ∧ lookupF "packages" fs = some (.strs (sortStrs project.package.packages))
    ∧ (sortStrs project.package.packages).Sorted (fun a b : String => a ≤ b)
    ∧ List.Perm (sortStrs project.package.packages) project.package.packages
    ∧ lookupF "package_dir" fs
      = (if project.package.package_dir = [] then none
          else some (.pairs project.package.package_dir))
    ∧ lookupF "package_data" fs = some (.groups (groupData project.package.data))
    ∧ (∀ m vs, (m, vs) ∈ groupData project.package.data →
        vs.Sorted (fun a b : String => a ≤ b)) := by
  obtain ⟨ls, hc, rfl⟩ := dumps_fields_ok h
  obtain ⟨-, -, h3, h4, h5, h6, h7, h8, -, h10, -, h12, h13, h14, h15, h16,
    h17, h18, h19, -, -, -⟩ := core_fields ls reqs project
  refine ⟨h3, h4, h5, h6, h7, h8, h10, h12, h13, h14, h15, h16, h17,
    List.sorted_insertionSort _ _, List.perm_insertionSort _ _, h18, h19, ?_⟩
  intro m vs hmem
  unfold groupData at hmem
  rcases List.mem_map.1 hmem with ⟨q, -, heq⟩
  cases heq
  exact List.sorted_insertionSort _ _

/-- Project with a description and unsorted package-data rules, used by the
C9 witness. -/
def wProj : Project :=
  { description := "d",
    package := { data := [⟨"m", "b"⟩, ⟨"m", "a"⟩] } }

/-- Witness for C9 (amended) at a concrete project: the description is
emitted, and the package-data mapping is emitted grouped and sorted even
though it came unsorted. -/
theorem dumps_optional_fields_spec_witness :
    lookupF "description" (dumps_fields_core [] [] wProj) = some (.str "d")
    ∧ lookupF "package_data" (dumps_fields_core [] [] wProj)
      = some (.groups [("m", ["a", "b"])]) := by
  obtain ⟨hd, -, -, -, -, -, -, -, -, -, -, -, -, -, -, -, hpd, -⟩ :=
    dumps_optional_fields_spec [] wProj (dumps_fields_core [] [] wProj) rfl
  refine ⟨?_, ?_⟩
  · rw [hd]
    decide
  · rw [hpd]
    simp [groupData, sortStrs, addToGroup, wProj, List.insertionSort,
      List.orderedInsert]
    decide

/-- C10: the `dependency_links` list collects a formatted link for every
requirement whose dependency has a link — including requirements that carry
extras-environments — and the keyword argument is emitted only when this list
is non-empty, whereas `install_requires` is emitted even when empty. -/
theorem dumps_dependency_links_spec (reqs : List Req) (project : Project)
    (fs : List (String × Val)) (h : dumps_fields reqs project = .ok fs) :
    ∃ ls, collect_links reqs = .ok ls
      ∧ (∀ r, r ∈ reqs → r.link ≠ none → ∃ s, format_link r = .ok s ∧ s ∈ ls)
      ∧ lookupF "dependency_links" fs
        = (if ls = [] then none else some (.strs ls))
      ∧ lookupF "install_requires" fs ≠ none := by
  obtain ⟨ls, hc, rfl⟩ := dumps_fields_ok h
  obtain ⟨-, -, -, -, -, -, -, -, -, -, -, -, -, -, -, -, -, -, -, hinst, hdep, -⟩ :=
    core_fields ls reqs project
  refine ⟨ls, hc, collect_links_mem reqs ls hc, hdep, ?_⟩
  rw [hinst]
  simp

/-- Requirement with a file link and a `docs` extras-environment, used by the
C10 witness. -/
def wReqLink : Req :=
  { name := "p", raw_name := "p", extras := [], version := "",
    markers := "", main_envs := ["docs"], link := some (.file "./p"),
    release := none }

/-- Witness for C10 at a concrete requirement carrying both a link and an
extras-environment: its link lands in `dependency_links` and the empty
`install_requires` list is still emitted. -/
theorem dumps_dependency_links_spec_witness :
    lookupF "dependency_links" (dumps_fields_core ["./p"] [wReqLink] {})
      = some (.strs ["./p"])
    ∧ lookupF "install_requires" (dumps_fields_core ["./p"] [wReqLink] {})
      ≠ none
    ∧ format_link wReqLink = .ok "./p" := by
  obtain ⟨ls, hc, hmem, hdep, hinst⟩ := dumps_dependency_links_spec [wReqLink] {}
    (dumps_fields_core ["./p"] [wReqLink] {}) rfl
  have hc2 : Except.ok (ε := String) ["./p"] = Except.ok ls := hc
  cases hc2
  refine ⟨?_, hinst, ?_⟩
  · rw [hdep]
    decide
  · rcases hmem wReqLink (by decide) (by decide) with ⟨s, hs, hsmem⟩
    have : s = "./p" := by
      rcases List.mem_singleton.1 hsmem with rfl
      rfl
    rw [← this]
    exact hs

/-- The string value a field name carries in the captured kwargs, if any. -/
def lookupStrV (k : String) (fs : List (String × Val)) : Option String :=
  match lookupF k fs with
  | some (.str s) => some s
  | _ => none

/-- The string-list value a field name carries in the captured kwargs. -/
def lookupStrsV (k : String) (fs : List (String × Val)) : Option (List String) :=
  match lookupF k fs with
  | some (.strs l) => some l
  | _ => none

/-- The mapping value a field name carries in the captured kwargs. -/
def lookupPairsV (k : String) (fs : List (String × Val)) :
    Option (List (String × String)) :=
  match lookupF k fs with
  | some (.pairs l) => some l
  | _ => none

/-- The grouped-mapping value a field name carries in the captured kwargs. -/
def lookupGroupsV (k : String) (fs : List (String × Val)) :
    Option (List (String × List String)) :=
  match lookupF k fs with
  | some (.groups l) => some l
  | _ => none

/-- Key-sorting a mapping, the effect of `json_dumps(value, sort_keys=True)`
on the order in which the generated script re-creates the mapping. -/
def sortByKey {α : Type} (l : List (String × α)) : List (String × α) :=
  l.insertionSort (fun a b => a.1 ≤ b.1)

/-- Modelled from the spec: executing the generated script (fixed template
plus the emitted keyword arguments) captures a `_dist` holding exactly those
keyword arguments, and the external `Distribution(dist)` object hands each of
them back to the `load` accessors unchanged — except that mapping values went
through `json_dumps(..., sort_keys=True)` and therefore come back in
key-sorted order. -/
def info_of (fs : List (String × Val)) : Info where
  name := lookupStrV "name" fs
  version := lookupStrV "version" fs
  description := lookupStrV "description" fs
  license := lookupStrV "license" fs
  keywords := lookupStrV "keywords" fs
  classifiers := lookupStrsV "classifiers" fs
  platforms := lookupStrsV "platforms" fs
  python_requires := lookupStrV "python_requires" fs
  url := lookupStrV "url" fs
  download_url := lookupStrV "download_url" fs
  author := lookupStrV "author" fs
  author_email := lookupStrV "author_email" fs
  maintainer := lookupStrV "maintainer" fs
  maintainer_email := lookupStrV "maintainer_email" fs
  project_urls := (lookupPairsV "project_urls" fs).map sortByKey
  entry_points := sortByKey ((lookupGroupsV "entry_points" fs).getD [])
  install_requires := (lookupStrsV "install_requires" fs).getD []
  extras_require := sortByKey ((lookupGroupsV "extras_require" fs).getD [])
  dependency_links := (lookupStrsV "dependency_links" fs).getD []

/-- Serializing with `dumps` and loading the produced script text with `load`
(primary strategy succeeding), restricted to the model fields. -/
def roundtrip (reqs : List Req) (project : Project) : Except String RootM :=
  (dumps_fields reqs project).map (fun fs => load_root (info_of fs))

/-- A string value that passes untouched through the tolerant `_get`
accessor: stripped of no whitespace and different from the `UNKNOWN`
sentinel. -/
def cleanStr (s : String) : Prop := pyStrip s = s ∧ s ≠ "UNKNOWN"

/-- The part of a link mapping the round trip can carry: the `home` entry,
then the `download` entry. -/
def linksCanon (links : List (String × String)) : List (String × String) :=
  (match lookupF "home" links with | some v => [("home", v)] | none => [])
  ++ (match lookupF "download" links with | some v => [("download", v)] | none => [])

/-- Flattening a group mapping back into entry points, as `load` does. -/
def flattenGroups (g : List (String × List String)) : List EntryPointM :=
  g.flatMap (fun p => p.2.map (fun t => ⟨p.1, t⟩))

theorem getStr_clean (s : String) (h : cleanStr s) : getStr (some s) = s := by
  by_cases hs : s = ""
  · subst hs
    rfl
  · rw [show getStr (some s)
        = (if s = "" then "" else if s = "UNKNOWN" then "" else pyStrip s) from rfl]
    rw [if_neg hs, if_neg h.2, h.1]

theorem lookupF_mem {α : Type} (k : String) (v : α) :
    ∀ l : List (String × α), lookupF k l = some v → (k, v) ∈ l := by
  intro l
  induction l with
  | nil => intro h; cases h
  | cons p rest ih =>
    intro h
    rcases p with ⟨k2, v2⟩
    by_cases hk : k2 = k
    · subst hk
      rw [lookupF, if_pos rfl] at h
      injection h with h2
      subst h2
      exact List.mem_cons_self _ _
    · rw [lookupF, if_neg hk] at h
      exact List.mem_cons_of_mem _ (ih h)

theorem getList_clean (l : List String)
    (h : ∀ s ∈ l, s ≠ "UNKNOWN" ∧ pyStrip s ≠ "") : getList (some l) = l := by
  rw [show getList (some l)
      = l.filter (fun s => !(s == "UNKNOWN") && !(pyStrip s == "")) from rfl]
  rw [List.filter_eq_self.2]
  intro s hs
  rcases h s hs with ⟨h1, h2⟩
  simp [h1, h2]

theorem lookupStrV_of_eq {fs : List (String × Val)} {k s : String}
    (h : lookupF k fs = some (Val.str s)) : lookupStrV k fs = some s := by
  unfold lookupStrV
  rw [h]

theorem lookupStrV_of_none {fs : List (String × Val)} {k : String}
    (h : lookupF k fs = none) : lookupStrV k fs = none := by
  unfold lookupStrV
  rw [h]

theorem lookupStrsV_of_eq {fs : List (String × Val)} {k : String}
    {l : List String} (h : lookupF k fs = some (Val.strs l)) :
    lookupStrsV k fs = some l := by
  unfold lookupStrsV
  rw [h]

theorem lookupStrsV_of_none {fs : List (String × Val)} {k : String}
    (h : lookupF k fs = none) : lookupStrsV k fs = none := by
  unfold lookupStrsV
  rw [h]

theorem lookupGroupsV_of_eq {fs : List (String × Val)} {k : String}
    {l : List (String × List String)} (h : lookupF k fs = some (Val.groups l)) :
    lookupGroupsV k fs = some l := by
  unfold lookupGroupsV
  rw [h]

theorem lookupGroupsV_of_none {fs : List (String × Val)} {k : String}
    (h : lookupF k fs = none) : lookupGroupsV k fs = none := by
  unfold lookupGroupsV
  rw [h]

theorem rt_raw_name (fs : List (String × Val)) :
    (load_root (info_of fs)).raw_name = getStr (lookupStrV "name" fs) := rfl

theorem rt_version (fs : List (String × Val)) :
    (load_root (info_of fs)).version
      = (if getStr (lookupStrV "version" fs) = "" then "0.0.0"
          else getStr (lookupStrV "version" fs)) := rfl

theorem rt_description (fs : List (String × Val)) :
    (load_root (info_of fs)).description
      = getStr (lookupStrV "description" fs) := rfl

theorem rt_license (fs : List (String × Val)) :
    (load_root (info_of fs)).license = getStr (lookupStrV "license" fs) := rfl

theorem rt_keywords (fs : List (String × Val)) :
    (load_root (info_of fs)).keywords
      = splitWs ((lookupStrV "keywords" fs).getD "") := rfl

theorem rt_classifiers (fs : List (String × Val)) :
    (load_root (info_of fs)).classifiers
      = getList (lookupStrsV "classifiers" fs) := rfl

theorem rt_platforms (fs : List (String × Val)) :
    (load_root (info_of fs)).platforms
      = getList (lookupStrsV "platforms" fs) := rfl

theorem rt_python (fs : List (String × Val)) :
    (load_root (info_of fs)).python
      = getStr (lookupStrV "python_requires" fs) := rfl

theorem rt_links (fs : List (String × Val)) :
    (load_root (info_of fs)).links
      = (if getStr (lookupStrV "url" fs) ≠ ""
          then [("home", getStr (lookupStrV "url" fs))] else [])
        ++ (if getStr (lookupStrV "download_url" fs) ≠ ""
          then [("download", getStr (lookupStrV "download_url" fs))] else []) := rfl

theorem rt_authors (fs : List (String × Val)) :
    (load_root (info_of fs)).authors
      = (if getStr (lookupStrV "author" fs) ≠ ""
          then [⟨getStr (lookupStrV "author" fs),
            getStr (lookupStrV "author_email" fs)⟩] else [])
        ++ (if getStr (lookupStrV "maintainer" fs) ≠ ""
          then [⟨getStr (lookupStrV "maintainer" fs),
            getStr (lookupStrV "maintainer_email" fs)⟩] else []) := rfl

theorem rt_entrypoints (fs : List (String × Val)) :
    (load_root (info_of fs)).entrypoints
      = flattenGroups (sortByKey ((lookupGroupsV "entry_points" fs).getD [])) := rfl

/-- Project whose only link carries the key `repository`, used by the C1
counterexample. -/
def ceProj : Project :=
  { raw_name := "x", version := "1", links := [("repository", "https://r")] }

/-- The links of a round-trip outcome, when it succeeded. -/
def rootLinksOf (e : Except String RootM) : Option (List (String × String)) :=
  match e with
  | .ok root => some root.links
  | .error _ => none

/-- C1 counterexample: a project whose link mapping holds a `repository` key
is serialized (the key appears in the emitted `project_urls` mapping) but the
loaded model's links are empty, so the explicitly-set links field does not
round trip as the claim states. -/
theorem roundtrip_links_ce :
    rootLinksOf (roundtrip [] ceProj) = some []
    ∧ ceProj.links = [("repository", "https://r")]
    ∧ emitsField "project_urls" (dumps_fields [] ceProj) = true := by
  decide

set_option maxHeartbeats 1000000 in
/-- C1 (amended): for a project model whose explicitly-set fields survive
serialization — string fields strip-stable and distinct from the `UNKNOWN`
sentinel, a nonempty version, keywords recoverable from their space-joined
form, classifier and platform entries non-blank and non-sentinel, links only
under the `home` and `download` keys with clean nonempty values, at most two
authors with clean nonempty names and clean mails, and entry points listed in
their key-sorted grouped order — serializing with `dumps` and loading the
produced script yields a model whose name, version, description, license,
keywords, classifiers, platforms, python constraint, links, authors and entry
points all equal the original. -/
theorem roundtrip_spec (reqs : List Req) (project : Project)
    (fs : List (String × Val))
    (h : dumps_fields reqs project = .ok fs)
    (hname : cleanStr project.raw_name)
    (hver : cleanStr project.version) (hver2 : project.version ≠ "")
    (hdesc : cleanStr project.description)
    (hlic : cleanStr project.license)
    (hpy : cleanStr project.python)
    (hkw : splitWs (String.intercalate " " project.keywords) = project.keywords)
    (hcls : ∀ s ∈ project.classifiers, s ≠ "UNKNOWN" ∧ pyStrip s ≠ "")
    (hplat : ∀ s ∈ project.platforms, s ≠ "UNKNOWN" ∧ pyStrip s ≠ "")
    (hlinks : project.links = linksCanon project.links)
    (hlv : ∀ p ∈ project.links, cleanStr p.2 ∧ p.2 ≠ "")
    (hauth : project.authors.length ≤ 2)
    (han : ∀ a ∈ project.authors, cleanStr a.name ∧ a.name ≠ "" ∧ cleanStr a.mail)
    (heps : flattenGroups (sortByKey (groupEntryPoints project.entrypoints))
      = project.entrypoints) :
    roundtrip reqs project = .ok (load_root (info_of fs))
    ∧ (load_root (info_of fs)).raw_name = project.raw_name
    ∧ (load_root (info_of fs)).version = project.version
    ∧ (load_root (info_of fs)).description = project.description
    ∧ (load_root (info_of fs)).license = project.license
    ∧ (load_root (info_of fs)).keywords = project.keywords
    ∧ (load_root (info_of fs)).classifiers = project.classifiers
    ∧ (load_root (info_of fs)).platforms = project.platforms
    ∧ (load_root (info_of fs)).python = project.python
    ∧ (load_root (info_of fs)).links = project.links
    ∧ (load_root (info_of fs)).authors = project.authors
    ∧ (load_root (info_of fs)).entrypoints = project.entrypoints := by
  have hrt : roundtrip reqs project = .ok (load_root (info_of fs)) := by
    unfold roundtrip
    rw [h]
    rfl
  obtain ⟨ls, hc, rfl⟩ := dumps_fields_ok h
  obtain ⟨h1, h2, h3, h4, h5, h6, h7, h8, h9, h10, h11, h12, h13, h14, h15,
    h16, h17, h18, h19, h20, h21, h22⟩ := core_fields ls reqs project
  refine ⟨hrt, ?_, ?_, ?_, ?_, ?_, ?_, ?_, ?_, ?_, ?_, ?_⟩
  · rw [rt_raw_name, lookupStrV_of_eq h1]
    exact getStr_clean _ hname
  · rw [rt_version, lookupStrV_of_eq h2, getStr_clean _ hver, if_neg hver2]
  · by_cases hd : project.description = ""
    · rw [rt_description, lookupStrV_of_none (h3.trans (if_pos hd))]
      exact hd.symm
    · rw [rt_description, lookupStrV_of_eq (h3.trans (if_neg hd))]
      exact getStr_clean _ hdesc
  · by_cases hl : project.license = ""
    · rw [rt_license, lookupStrV_of_none (h12.trans (if_pos hl))]
      exact hl.symm
    · rw [rt_license, lookupStrV_of_eq (h12.trans (if_neg hl))]
      exact getStr_clean _ hlic
  · by_cases hk : project.keywords = []
    · rw [rt_keywords, lookupStrV_of_none (h13.trans (if_pos hk))]
      exact hk.symm
    · rw [rt_keywords, lookupStrV_of_eq (h13.trans (if_neg hk)), Option.getD_some]
      exact hkw
  · by_cases hcl : project.classifiers = []
    · rw [rt_classifiers, lookupStrsV_of_none (h14.trans (if_pos hcl))]
      exact hcl.symm
    · rw [rt_classifiers, lookupStrsV_of_eq (h14.trans (if_neg hcl))]
      exact getList_clean _ hcls
  · by_cases hpl : project.platforms = []
    · rw [rt_platforms, lookupStrsV_of_none (h15.trans (if_pos hpl))]
      exact hpl.symm
    · rw [rt_platforms, lookupStrsV_of_eq (h15.trans (if_neg hpl))]
      exact getList_clean _ hplat
  · by_cases hp : project.python = ""
    · rw [rt_python, lookupStrV_of_none (h4.trans (if_pos hp))]
      exact hp.symm
    · rw [rt_python, lookupStrV_of_eq (h4.trans (if_neg hp))]
      exact getStr_clean _ hpy
  · rw [rt_links]
    conv_rhs => rw [hlinks]
    rcases hu : lookupF "home" project.links with _ | v <;>
      rcases hdw : lookupF "download" project.links with _ | w
    · rw [lookupStrV_of_none (h5.trans (by rw [hu]; rfl)),
        lookupStrV_of_none (h6.trans (by rw [hdw]; rfl))]
      simp [linksCanon, hu, hdw, getStr]
    · have hwc := hlv _ (lookupF_mem "download" w project.links hdw)
      rw [lookupStrV_of_none (h5.trans (by rw [hu]; rfl)),
        lookupStrV_of_eq (h6.trans (by rw [hdw]; rfl)), getStr_clean _ hwc.1]
      simp [linksCanon, hu, hdw, getStr, hwc.2]
    · have hvc := hlv _ (lookupF_mem "home" v project.links hu)
      rw [lookupStrV_of_eq (h5.trans (by rw [hu]; rfl)),
        lookupStrV_of_none (h6.trans (by rw [hdw]; rfl)), getStr_clean _ hvc.1]
      simp [linksCanon, hu, hdw, getStr, hvc.2]
    · have hvc := hlv _ (lookupF_mem "home" v project.links hu)
      have hwc := hlv _ (lookupF_mem "download" w project.links hdw)
      rw [lookupStrV_of_eq (h5.trans (by rw [hu]; rfl)),
        lookupStrV_of_eq (h6.trans (by rw [hdw]; rfl)),
        getStr_clean _ hvc.1, getStr_clean _ hwc.1]
      simp [linksCanon, hu, hdw, hvc.2, hwc.2]
  · rw [rt_authors]
    rcases hal : project.authors with _ | ⟨a, _ | ⟨b, _ | ⟨c, t⟩⟩⟩
    · rw [lookupStrV_of_none (h8.trans (by rw [hal]; rfl)),
        lookupStrV_of_none (h10.trans (by rw [hal]; rfl))]
      simp [getStr]
    · have hac := han a (by rw [hal]; exact List.mem_cons_self _ _)
      have e2 : getStr (lookupStrV "author_email" (dumps_fields_core ls reqs project))
          = a.mail := by
        by_cases hm : a.mail = ""
        · rw [lookupStrV_of_none (h9.trans (by rw [hal]; simp [hm]))]
          exact hm.symm
        · have e : lookupF "author_email" (dumps_fields_core ls reqs project)
              = some (Val.str a.mail) := by
            rw [h9, hal]
            simp [hm]
          rw [lookupStrV_of_eq e]
          exact getStr_clean _ hac.2.2
      rw [lookupStrV_of_eq (h8.trans (by rw [hal]; rfl)),
        lookupStrV_of_none (h10.trans (by rw [hal]; rfl)),
        getStr_clean _ hac.1, e2]
      simp [getStr, hac.2.1]
    · have hac := han a (by rw [hal]; exact List.mem_cons_self _ _)
      have hbc := han b (by
        rw [hal]
        exact List.mem_cons_of_mem _ (List.mem_cons_self _ _))
      have e2 : getStr (lookupStrV "author_email" (dumps_fields_core ls reqs project))
          = a.mail := by
        by_cases hm : a.mail = ""
        · rw [lookupStrV_of_none (h9.trans (by rw [hal]; simp [hm]))]
          exact hm.symm
        · have e : lookupF "author_email" (dumps_fields_core ls reqs project)
              = some (Val.str a.mail) := by
            rw [h9, hal]
            simp [hm]
          rw [lookupStrV_of_eq e]
          exact getStr_clean _ hac.2.2
      have e4 : getStr (lookupStrV "maintainer_email" (dumps_fields_core ls reqs project))
          = b.mail := by
        by_cases hm : b.mail = ""
        · rw [lookupStrV_of_none (h11.trans (by rw [hal]; simp [hm]))]
          exact hm.symm
        · have e : lookupF "maintainer_email" (dumps_fields_core ls reqs project)
              = some (Val.str b.mail) := by
            rw [h11, hal]
            simp [hm]
          rw [lookupStrV_of_eq e]
          exact getStr_clean _ hbc.2.2
      rw [lookupStrV_of_eq (h8.trans (by rw [hal]; rfl)),
        lookupStrV_of_eq (h10.trans (by rw [hal]; rfl)),
        getStr_clean _ hac.1, getStr_clean _ hbc.1, e2, e4]
      simp [hac.2.1, hbc.2.1]
    · exfalso
      rw [hal] at hauth
      simp at hauth
  · by_cases he : project.entrypoints = []
    · rw [rt_entrypoints, lookupGroupsV_of_none (h16.trans (if_pos he))]
      exact he.symm
    · rw [rt_entrypoints, lookupGroupsV_of_eq (h16.trans (if_neg he)),
        Option.getD_some]
      exact heps

instance cleanStrDec (s : String) : Decidable (cleanStr s) :=
  inferInstanceAs (Decidable (pyStrip s = s ∧ s ≠ "UNKNOWN"))

def wRound : Project :=
  { raw_name := "pkg", version := "1.0", description := "desc",
    python := ">=3.6",
    links := [("home", "https://h"), ("download", "https://d")],
    authors := [⟨"Ann", "a@x"⟩, ⟨"Bob", ""⟩],
    license := "MIT", keywords := ["k1", "k2"],
    classifiers := ["Topic :: X"], platforms := ["linux"],
    entrypoints := [⟨"console_scripts", "run = pkg:main"⟩],
    package := {} }

/-- Witness for C1 (amended) at a fully-populated concrete project: every
listed field is recovered exactly by the round trip. -/
theorem roundtrip_spec_witness :
    (load_root (info_of (dumps_fields_core [] [] wRound))).raw_name = "pkg"
    ∧ (load_root (info_of (dumps_fields_core [] [] wRound))).version = "1.0"
    ∧ (load_root (info_of (dumps_fields_core [] [] wRound))).keywords = ["k1", "k2"]
    ∧ (load_root (info_of (dumps_fields_core [] [] wRound))).links
      = [("home", "https://h"), ("download", "https://d")]
    ∧ (load_root (info_of (dumps_fields_core [] [] wRound))).authors
      = [⟨"Ann", "a@x"⟩, ⟨"Bob", ""⟩]
    ∧ (load_root (info_of (dumps_fields_core [] [] wRound))).entrypoints
      = [⟨"console_scripts", "run = pkg:main"⟩] := by
  have h := roundtrip_spec [] wRound (dumps_fields_core [] [] wRound) rfl
    (by decide) (by decide) (by decide) (by decide) (by decide) (by decide)
    (by decide) (by decide) (by decide) (by decide) (by decide) (by decide)
    (by decide) (by decide)
  refine ⟨?_, ?_, ?_, ?_, ?_, ?_⟩
  · rw [h.2.1]
    rfl
  · rw [h.2.2.1]
    rfl
  · rw [h.2.2.2.2.2.1]
    rfl
  · rw [h.2.2.2.2.2.2.2.2.2.1]
    rfl
  · rw [h.2.2.2.2.2.2.2.2.2.2.1]
    rfl
  · rw [h.2.2.2.2.2.2.2.2.2.2.2]
    rfl



end Dephell
